import Mathlib

/-!
Shallow embedding of the SPARQL result-transformation pipeline of the
rawgraphs-app data loaders (`SparqlFetch.js`, `CatalogueSearch.js`).

JavaScript objects whose fields hold pipeline values are modelled as
insertion-ordered association lists from property-key strings to values;
property read and property assignment are `objGet` and `objSet`.  The
value universe that actually flows through the pipeline is captured by
`JsVal`: strings, booleans, `undefined`, and the flat "resolved IRI"
objects produced by enrichment (whose fields are primitives, `JsPrim`).
The non-enumerable `SparqlMarker` symbol that the source attaches to row
arrays is modelled as the explicit boolean `tag` of a `RowSet`.
-/

namespace RawGraphs

/-! ## Definitions: the embedded data model and pipeline -/

/-- Primitive JavaScript values occurring as fields of the enrichment
object built by `resolveWikidataIrisInRawResults`. -/
inductive JsPrim where
  | pstr (s : String)
  | pbool (b : Bool)
deriving DecidableEq, Repr

/-- JavaScript values occurring as row fields in the pipeline: strings
(SPARQL term values), booleans, `undefined`, and the flat enrichment
object `\x7b iri, label, __resolved_iri__ \x7d`. -/
inductive JsVal where
  | vstr (s : String)
  | vbool (b : Bool)
  | vundefined
  | vobj (fields : List (String × JsPrim))
deriving DecidableEq, Repr

/-- A row, as built by the loaders: a JavaScript object used as a bag of
dynamic properties, modelled as an insertion-ordered association list. -/
abbrev Row := List (String × JsVal)

/-- Property read `m[k]` on a JavaScript object: the value at the key,
or `none` when the key is absent (JS `undefined`). -/
def objGet {α : Type} (m : List (String × α)) (k : String) : Option α :=
  match m with
  | [] => none
  | (k', v) :: rest => if k' = k then some v else objGet rest k

/-- Property assignment `m[k] = v` on a JavaScript object: overwrite in
place when the key exists (keeping its position), append otherwise. -/
def objSet {α : Type} (m : List (String × α)) (k : String) (v : α) :
    List (String × α) :=
  match m with
  | [] => [(k, v)]
  | (k', v') :: rest =>
    if k' = k then (k', v) :: rest else (k', v') :: objSet rest k v

/-- JavaScript truthiness of the modelled values: the empty string,
`false` and `undefined` are falsy, objects are truthy. -/
def truthy : JsVal → Bool
  | .vstr s => s ≠ ""
  | .vbool b => b
  | .vundefined => false
  | .vobj _ => true

/-- Truthiness of a possibly-absent property (`undefined` is falsy). -/
def truthyOpt : Option JsVal → Bool
  | some v => truthy v
  | none => false

/-- JavaScript string coercion used when a value is used as a property
key (`acc[subjectVal]`): strings are themselves, objects stringify to
"[object Object]". -/
def toPropertyKey : JsVal → String
  | .vstr s => s
  | .vbool b => if b then "true" else "false"
  | .vundefined => "undefined"
  | .vobj _ => "[object Object]"

/-- A row sequence together with the provenance marker that the source
attaches to pipeline-produced arrays (`rows[SparqlMarker] = true`),
made explicit as a boolean tag. -/
structure RowSet where
  rows : List Row
  tag : Bool
deriving DecidableEq, Repr

/-- One bound term of a SPARQL JSON binding: `\x7b value, type \x7d`. -/
structure SparqlTerm where
  value : String
  type : String
deriving DecidableEq, Repr

/-- One binding: a map from variable name to bound term; a variable may
be absent (unbound). -/
abbrev Binding := List (String × SparqlTerm)

/-- The `head` part of a SPARQL JSON result: the declared variables. -/
structure SparqlHead where
  vars : List String
deriving DecidableEq, Repr

/-- The `results` part of a SPARQL JSON result; `bindings` may be
absent (a falsy field fails the shape guard). -/
structure SparqlResults where
  bindings : Option (List Binding)
deriving DecidableEq, Repr

/-- The wire result object; `head` and `results` may each be absent.
The whole payload may also be null/undefined, modelled by wrapping in
`Option` at use sites. -/
structure WireResult where
  head : Option SparqlHead
  results : Option SparqlResults
deriving DecidableEq, Repr

/-- The value emitted for one variable of one binding: the bound term's
`value` when present, the empty string when the variable is unbound. -/
def bindingTermValue (b : Binding) (v : String) : String :=
  match objGet b v with
  | some t => t.value
  | none => ""

/-- The row built for one binding: `row[variable] = term.value` (or `''`)
for each declared variable in declared order. -/
def buildRow (vars : List String) (b : Binding) : Row :=
  vars.foldl (fun row v => objSet row v (.vstr (bindingTermValue b v))) []

/-- The function `convertSparqlJsonToObjects` from SparqlFetch.js: checks the
`head`/`results`/`results.bindings` shape (returning an empty list after
logging when it is missing — the source does not throw there), then maps
each binding to a flat row.  The `Except` codomain records that the
function could in principle throw, as JavaScript functions can; no
branch of the source does. -/
def convertSparqlJsonToObjects (sparqlJson : Option WireResult) :
    Except String (List Row) :=
  match sparqlJson with
  | none => .ok []
  | some j =>
    match j.head, j.results with
    | some h, some r =>
      match r.bindings with
      | some bs => .ok (bs.map (buildRow h.vars))
      | none => .ok []
    | _, _ => .ok []

/-- The condition under which the shape guard of
`convertSparqlJsonToObjects` fires: payload, `head`, `results` or
`results.bindings` missing. -/
def lacksResultShape (sparqlJson : Option WireResult) : Bool :=
  match sparqlJson with
  | none => true
  | some j =>
    match j.head, j.results with
    | some _, some r => r.bindings.isNone
    | _, _ => true

/-- The function `fetchData` from SparqlFetch.js, after the HTTP exchange: a non-ok
response throws; an ok response is converted to rows, which are then
marked with the provenance tag (`rows[SparqlMarker] = true`). -/
def fetchData (responseOk : Bool) (jsonData : Option WireResult) :
    Except String RowSet :=
  if !responseOk then .error "SPARQL query failed" else
  match convertSparqlJsonToObjects jsonData with
  | .ok rows => .ok ⟨rows, true⟩
  | .error e => .error e

/-- JS `s.startsWith(p)` on the character-list view of strings. -/
def jsStartsWith (s p : String) : Bool :=
  p.data.isPrefixOf s.data

/-- JS `s.endsWith(p)` on the character-list view of strings. -/
def jsEndsWith (s p : String) : Bool :=
  p.data.isSuffixOf s.data

/-- JS `iri.substring(iri.lastIndexOf('/') + 1)`: the substring after
the last slash, or the whole string when there is no slash. -/
def afterLastSlash (s : String) : String :=
  ⟨(s.data.reverse.takeWhile (fun c => c ≠ '/')).reverse⟩

/-- The Wikidata entity-IRI prefixes recognized by
`resolveWikidataIrisInRawResults`. -/
def wikidataPrefixList : List String :=
  ["http://www.wikidata.org/entity/Q",
   "https://www.wikidata.org/entity/Q",
   "http://www.wikidata.org/wiki/Q",
   "https://www.wikidata.org/wiki/Q"]

/-- The match test applied to a string field value before enrichment. -/
def isWikidataStr (s : String) : Bool :=
  wikidataPrefixList.any (fun p => jsStartsWith s p)

/-- One entity of a parsed `wbgetentities` response: its `id` and its
English label (`labels.en.value`), when present. -/
structure WEntity where
  id : String
  label : Option String
deriving DecidableEq, Repr

/-- The per-entity step of `fetchWikidataLabels`: an entity with a
truthy id and a truthy English label is keyed back to the first
identifier of the batch that ends with `'/' + entity.id`; entities
without a usable label only produce a log line. -/
def addEntityLabels (iris : List String) (labels : List (String × String))
    (e : WEntity) : List (String × String) :=
  match e.label with
  | some l =>
    if e.id ≠ "" ∧ l ≠ "" then
      match iris.find? (fun iri => jsEndsWith iri ("/" ++ e.id)) with
      | some originalIri => objSet labels originalIri l
      | none => labels
    else labels
  | none => labels

/-- The ids actually sent to the Wikidata API: each identifier reduced
to the substring after its last slash
(`iris.map(iri => iri.substring(iri.lastIndexOf('/') + 1))`). -/
def wikidataRequestIds (iris : List String) : List String :=
  iris.map afterLastSlash

/-- The function `fetchWikidataLabels` from CatalogueSearch.js.  `resp` is the parsed
entity list of the API response; `none` models a network failure or a
non-2xx status, both of which the source catches, returning the labels
accumulated so far (the empty map). -/
def fetchWikidataLabels (resp : Option (List WEntity)) (iris : List String) :
    List (String × String) :=
  if iris.isEmpty then [] else
  match resp with
  | none => []
  | some es => es.foldl (addEntityLabels iris) []

/-- The deduplicated set of Wikidata IRIs found in the `entity_name`
field across all rows (`wikidataIrisToResolve`, a JS `Set`, spread in
insertion order). -/
def wikidataIrisToResolve (triples : List Row) : List String :=
  triples.foldl
    (fun (acc : List String) (row : Row) =>
      match objGet row "entity_name" with
      | some (JsVal.vstr s) =>
        if isWikidataStr s && !(acc.contains s) then acc ++ [s] else acc
      | _ => acc)
    []

/-- The per-row rewrite of `resolveWikidataIrisInRawResults`: a string
`entity_name` present in the label map is replaced by the object
`\x7b iri, label, __resolved_iri__: true \x7d`; every other row passes
through unchanged. -/
def resolveRow (labelsMap : List (String × String)) (row : Row) : Row :=
  match objGet row "entity_name" with
  | some (.vstr s) =>
    match objGet labelsMap s with
    | some lbl =>
      objSet row "entity_name"
        (.vobj [("iri", .pstr s), ("label", .pstr lbl),
                ("__resolved_iri__", .pbool true)])
    | none => row
  | _ => row

/-- The function `resolveWikidataIrisInRawResults` from CatalogueSearch.js: empty
input and an empty IRI set short-circuit to the input itself; otherwise
one batched label lookup is performed and each row is rewritten by
`resolveRow`, with the provenance tag propagated from the input. -/
def resolveWikidataIrisInRawResults (resp : Option (List WEntity))
    (triples : RowSet) : RowSet :=
  if triples.rows.isEmpty then triples
  else
    let iris := wikidataIrisToResolve triples.rows
    if iris.isEmpty then triples
    else
      let labelsMap := fetchWikidataLabels resp iris
      ⟨triples.rows.map (resolveRow labelsMap), triples.tag⟩

/-- The body of the `reduce` inside `pivotTripleResults`: a triple with
falsy subject or falsy column name is skipped; otherwise the accumulator
row for the subject (created on first sight, seeded with
`\x7b s: subjectVal \x7d`) gets `accRow[column_name] = entity_name`. -/
def pivotStep (acc : List (String × Row)) (triple : Row) :
    List (String × Row) :=
  let subjectVal := objGet triple "s"
  let predicateVal := objGet triple "column_name"
  let objectVal := objGet triple "entity_name"
  if truthyOpt subjectVal && truthyOpt predicateVal then
    let sv := subjectVal.getD .vundefined
    let key := toPropertyKey sv
    let row0 :=
      match objGet acc key with
      | some r => r
      | none => [("s", sv)]
    objSet acc key
      (objSet row0 (toPropertyKey (predicateVal.getD .vundefined))
        (objectVal.getD .vundefined))
  else acc

/-- The `groupedBySubject` accumulator object of `pivotTripleResults`:
keys are the stringified subjects, in first-seen order. -/
def groupedBySubject (triples : List Row) : List (String × Row) :=
  triples.foldl pivotStep []

/-- The function `pivotTripleResults` from CatalogueSearch.js.  An empty input
returns a fresh `[]` (before the marker-propagation line runs).  The
marker is copied not from the argument but from the enclosing
`rawResults` binding that the arrow function closes over, passed here as
`rawResults`. -/
def pivotTripleResults (rawResults : RowSet) (triples : RowSet) : RowSet :=
  if triples.rows.isEmpty then ⟨[], false⟩
  else ⟨(groupedBySubject triples.rows).map Prod.snd, rawResults.tag⟩

/-- The transformation chain of `handleDatasetSelect`: raw results are
enriched (`resolveWikidataIrisInRawResults`) and then pivoted
(`pivotTripleResults`, closing over the raw results for the marker). -/
def catalogueTransform (resp : Option (List WEntity))
    (rawResults : RowSet) : RowSet :=
  pivotTripleResults rawResults (resolveWikidataIrisInRawResults resp rawResults)

/-- The component state touched by `executeSearch`. -/
structure SearchState where
  searchResults : List Row
  error : Option String
  isLoading : Bool
deriving DecidableEq, Repr

/-- The synchronous prefix of `executeSearch`: the empty-term and
empty-endpoint guards, then `setIsLoading(true)` and error reset before
the request is issued. -/
def executeSearchStart (currentSearchTerm currentEndpoint : String)
    (isInitialCall : Bool) (st : SearchState) : SearchState :=
  if !isInitialCall && (currentSearchTerm.trim == "") then
    { st with searchResults := [], error := none }
  else if currentEndpoint.trim == "" then
    { st with error := some "SPARQL endpoint URL cannot be empty.",
              searchResults := [] }
  else
    { st with isLoading := true, error := none }

/-- The continuation of `executeSearch` that runs when its response
arrives: on success the results are stored (with a user-visible message
when they are empty), on failure the error is stored and the results
cleared; either way loading ends.  No generation check guards this
update. -/
def executeSearchComplete (outcome : Except String (List Row))
    (st : SearchState) : SearchState :=
  match outcome with
  | .ok results =>
    { st with searchResults := results,
              error := if results.isEmpty then
                  some "No datasets found matching your query."
                else st.error,
              isLoading := false }
  | .error msg =>
    { st with error := some msg, searchResults := [], isLoading := false }

/-- One observable event of a search session: a run starting (the
synchronous part of `executeSearch`) or a run's response arriving. -/
inductive SearchEvent where
  | start (searchTerm endpoint : String) (isInitialCall : Bool)
  | complete (outcome : Except String (List Row))

/-- A session is the fold of its event interleaving over the component
state: this is the single-threaded cooperative scheduling of the
source, where each `await` resumption applies `executeSearchComplete`. -/
def runSession (st : SearchState) (events : List SearchEvent) : SearchState :=
  events.foldl
    (fun s e =>
      match e with
      | .start t ep ini => executeSearchStart t ep ini s
      | .complete o => executeSearchComplete o s)
    st

/-- The wire result of the C5 end-to-end scenario. -/
def wireC5 : Option WireResult :=
  some ⟨some ⟨["s", "column_name", "entity_name"]⟩,
        some ⟨some
          [[("s", ⟨"u1", "uri"⟩), ("column_name", ⟨"name", "literal"⟩),
            ("entity_name", ⟨"Alice", "literal"⟩)],
           [("s", ⟨"u1", "uri"⟩), ("column_name", ⟨"age", "literal"⟩),
            ("entity_name", ⟨"30", "literal"⟩)]]⟩⟩

/-- The guard of the pivot reduce step: a triple takes part in pivoting
exactly when its subject and its column name are both truthy
(`if (!subjectVal || !predicateVal) ... return acc`). -/
def contributesToPivot (triple : Row) : Bool :=
  truthyOpt (objGet triple "s") && truthyOpt (objGet triple "column_name")

/-- The accumulator property key of a triple's subject. -/
def pivotSubjKey (triple : Row) : String :=
  toPropertyKey ((objGet triple "s").getD .vundefined)

/-- The accumulator-row property key of a triple's column name. -/
def pivotColKey (triple : Row) : String :=
  toPropertyKey ((objGet triple "column_name").getD .vundefined)

/-- The value a triple writes into its accumulator row. -/
def pivotObjVal (triple : Row) : JsVal :=
  (objGet triple "entity_name").getD .vundefined

/-- The accumulator row created on first sight of a subject:
`\x7b s: subjectVal \x7d`. -/
def pivotSeed (triple : Row) : Row :=
  [("s", (objGet triple "s").getD .vundefined)]

/-- The last triple of `rows` that contributes to pivoting with subject
key `σ` and column key `κ` — the "last write" for that cell. -/
def lastDupRow (rows : List Row) (σ κ : String) : Option Row :=
  rows.reverse.find?
    (fun row => contributesToPivot row && (pivotSubjKey row == σ) &&
      (pivotColKey row == κ))

/-- The subject keys of the contributing triples, deduplicated in
first-seen order. -/
def firstSeenSubjects (rows : List Row) : List String :=
  rows.foldl
    (fun (ks : List String) (row : Row) =>
      if contributesToPivot row && !(ks.contains (pivotSubjKey row)) then
        ks ++ [pivotSubjKey row]
      else ks)
    []

/-! ## Theorems -/

theorem objGet_objSet_self {α : Type} (m : List (String × α)) (k : String)
    (v : α) : objGet (objSet m k v) k = some v := by
  induction m with
  | nil => simp [objGet, objSet]
  | cons p rest ih =>
    obtain ⟨k', v'⟩ := p
    by_cases h : k' = k
    · simp [objGet, objSet, h]
    · simp [objGet, objSet, h, ih]

theorem objGet_objSet_ne {α : Type} (m : List (String × α)) (k k' : String)
    (v : α) (h : k' ≠ k) : objGet (objSet m k v) k' = objGet m k' := by
  induction m with
  | nil => simp [objGet, objSet, Ne.symm h]
  | cons p rest ih =>
    obtain ⟨k₀, v₀⟩ := p
    by_cases h0 : k₀ = k
    · subst h0
      simp [objGet, objSet, Ne.symm h]
    · simp only [objSet, if_neg h0]
      by_cases h1 : k₀ = k'
      · simp [objGet, h1]
      · simp [objGet, h1, ih]

theorem objSet_keys {α : Type} (m : List (String × α)) (k : String)
    (v : α) :
    (objSet m k v).map Prod.fst =
      if (m.map Prod.fst).contains k then m.map Prod.fst
      else m.map Prod.fst ++ [k] := by
  induction m with
  | nil => simp [objSet]
  | cons p rest ih =>
    obtain ⟨k₀, v₀⟩ := p
    by_cases h0 : k₀ = k
    · subst h0
      simp [objSet, List.contains_cons]
    · have hbeq : (k == k₀) = false :=
        beq_eq_false_iff_ne.mpr (fun hh => h0 hh.symm)
      simp only [objSet, if_neg h0, List.map_cons, List.contains_cons, hbeq,
        Bool.false_or, ih]
      by_cases hc : (rest.map Prod.fst).contains k = true
      · rw [if_pos hc, if_pos hc]
      · rw [if_neg hc, if_neg hc, List.cons_append]

theorem objGet_mem_keys {α : Type} (m : List (String × α)) (k : String)
    (v : α) (h : objGet m k = some v) : k ∈ m.map Prod.fst := by
  induction m with
  | nil => simp [objGet] at h
  | cons p rest ih =>
    obtain ⟨k₀, v₀⟩ := p
    by_cases h0 : k₀ = k
    · simp [h0]
    · simp only [objGet, if_neg h0] at h
      simp [ih h]

theorem buildRow_objGet (vars : List String) (b : Binding) (k : String) :
    objGet (buildRow vars b) k =
      if k ∈ vars then some (.vstr (bindingTermValue b k)) else none := by
  have main : ∀ (vs : List String) (acc : Row),
      objGet (vs.foldl
        (fun row v => objSet row v (.vstr (bindingTermValue b v))) acc) k =
        if k ∈ vs then some (.vstr (bindingTermValue b k))
        else objGet acc k := by
    intro vs
    induction vs with
    | nil => intro acc; simp
    | cons v rest ih =>
      intro acc
      simp only [List.foldl_cons, ih, List.mem_cons]
      by_cases hr : k ∈ rest
      · simp [hr]
      · by_cases hv : k = v
        · subst hv
          simp [hr, objGet_objSet_self]
        · simp [hr, hv, objGet_objSet_ne acc v k _ hv]
  simpa [buildRow, objGet] using main vars []

/-- C1: for every well-formed WireResult (head.vars and results.bindings
both present), normalization succeeds and produces one row per binding;
every row has exactly the declared variable names as keys, and each
declared variable is bound to the corresponding term's value when the
binding contains it and to the empty string when it is absent. -/
theorem normalize_wellformed_shape (h : SparqlHead) (bs : List Binding) :
    ∃ rows,
      convertSparqlJsonToObjects (some ⟨some h, some ⟨some bs⟩⟩) = .ok rows ∧
      rows.length = bs.length ∧
      (∀ row ∈ rows, ∀ k, (objGet row k).isSome = true ↔ k ∈ h.vars) ∧
      (∀ i b, bs.get? i = some b →
        ∃ row, rows.get? i = some row ∧
          ∀ v ∈ h.vars,
            objGet row v = some (.vstr (bindingTermValue b v))) := by
  refine ⟨bs.map (buildRow h.vars), rfl, by simp, ?_, ?_⟩
  · intro row hrow k
    rcases List.mem_map.mp hrow with ⟨b, _, rfl⟩
    rw [buildRow_objGet]
    by_cases hk : k ∈ h.vars
    · simp [hk]
    · simp [hk]
  · intro i b hb
    refine ⟨buildRow h.vars b, ?_, ?_⟩
    · rw [List.get?_map, hb]
      rfl
    · intro v hv
      rw [buildRow_objGet]
      simp [hv]

/-- Witness for C10: the http and https IRIs of Wikidata entity Q1 in
one batch; with a response labelling Q1, the https variant (second in
the batch) gets no label and its row survives enrichment as a plain
string. -/
theorem normalize_wellformed_shape_witness :
    ∃ rows,
      convertSparqlJsonToObjects
        (some ⟨some ⟨["a", "b"]⟩, some ⟨some [[("a", ⟨"1", "literal"⟩)]]⟩⟩) =
        .ok rows ∧
      rows.length = [[(("a" : String), (⟨"1", "literal"⟩ : SparqlTerm))]].length ∧
      (∀ row ∈ rows, ∀ k,
        (objGet row k).isSome = true ↔ k ∈ (⟨["a", "b"]⟩ : SparqlHead).vars) ∧
      (∀ i b, [[(("a" : String), (⟨"1", "literal"⟩ : SparqlTerm))]].get? i = some b →
        ∃ row, rows.get? i = some row ∧
          ∀ v ∈ (⟨["a", "b"]⟩ : SparqlHead).vars,
            objGet row v = some (.vstr (bindingTermValue b v))) :=
  normalize_wellformed_shape ⟨["a", "b"]⟩ [[("a", ⟨"1", "literal"⟩)]]

/-- C2 counterexample: on a wire result with `head` and `results` both
missing the source normalizer does not raise; it returns a normal (empty)
row list, refuting "raises an error rather than returning a value". -/
theorem normalize_malformed_counterexample :
    lacksResultShape (some ⟨none, none⟩) = true ∧
      convertSparqlJsonToObjects (some ⟨none, none⟩) = .ok [] :=
  ⟨rfl, rfl⟩

/-- C2 amended: whenever the wire result lacks the expected
head/results/results.bindings structure, normalization logs the problem
and returns an empty row list; no error is ever raised on that path. -/
theorem normalize_malformed_returns_empty (sparqlJson : Option WireResult)
    (h : lacksResultShape sparqlJson = true) :
    convertSparqlJsonToObjects sparqlJson = .ok [] := by
  match sparqlJson with
  | none => rfl
  | some j =>
    match hh : j.head, hr : j.results with
    | some hd, some r =>
      match hb : r.bindings with
      | some bs =>
        exfalso
        simp [lacksResultShape, hh, hr, hb] at h
      | none =>
        simp [convertSparqlJsonToObjects, hh, hr, hb]
    | some hd, none => simp [convertSparqlJsonToObjects, hh, hr]
    | none, some r => simp [convertSparqlJsonToObjects, hh, hr]
    | none, none => simp [convertSparqlJsonToObjects, hh, hr]

/-- Witness for the amended C2 at a payload whose `results` field is
missing. -/
theorem normalize_malformed_returns_empty_witness :
    convertSparqlJsonToObjects (some ⟨some ⟨["x"]⟩, none⟩) = .ok [] :=
  normalize_malformed_returns_empty (some ⟨some ⟨["x"]⟩, none⟩) rfl

/-- C3 counterexample: pivoting an empty tagged RowSet through the
pipeline yields an empty RowSet WITHOUT the tag — the early return
`if (!triples || triples.length === 0) return []` runs before the
marker-propagation line, refuting "an empty tagged RowSet yields an
empty RowSet that still carries the tag". -/
theorem pivot_empty_drops_tag_counterexample :
    pivotTripleResults ⟨[], true⟩ ⟨[], true⟩ = ⟨[], false⟩ ∧
      catalogueTransform none ⟨[], true⟩ = ⟨[], false⟩ :=
  ⟨rfl, rfl⟩

/-- C3 amended: enrichment always propagates the input tag unchanged;
pivoting a non-empty RowSet carries over the tag of the enclosing raw
result set; but pivoting an empty RowSet returns an untagged empty
RowSet. -/
theorem tag_propagation_amended :
    (∀ (resp : Option (List WEntity)) (ts : RowSet),
        (resolveWikidataIrisInRawResults resp ts).tag = ts.tag) ∧
    (∀ (rawResults ts : RowSet), ts.rows ≠ [] →
        (pivotTripleResults rawResults ts).tag = rawResults.tag) ∧
    (∀ (rawResults : RowSet) (tag : Bool),
        pivotTripleResults rawResults ⟨[], tag⟩ = ⟨[], false⟩) := by
  refine ⟨?_, ?_, ?_⟩
  · intro resp ts
    unfold resolveWikidataIrisInRawResults
    by_cases h0 : ts.rows.isEmpty
    · simp [h0]
    · by_cases h1 : (wikidataIrisToResolve ts.rows).isEmpty
      · simp [h0, h1]
      · simp [h0, h1]
  · intro rawResults ts h
    unfold pivotTripleResults
    rw [if_neg (by simpa [List.isEmpty_iff] using h)]
  · intro rawResults tag
    rfl

/-- Witness for the amended C3 at a one-row tagged RowSet and at the
empty RowSet. -/
theorem tag_propagation_amended_witness :
    (resolveWikidataIrisInRawResults none
        ⟨[[("entity_name", .vstr "x")]], true⟩).tag = true ∧
    (pivotTripleResults ⟨[], true⟩
        ⟨[[("s", .vstr "u1"), ("column_name", .vstr "c")]], false⟩).tag =
      true ∧
    pivotTripleResults ⟨[], true⟩ ⟨[], true⟩ = ⟨[], false⟩ :=
  ⟨tag_propagation_amended.1 none ⟨[[("entity_name", .vstr "x")]], true⟩,
   tag_propagation_amended.2.1 ⟨[], true⟩
     ⟨[[("s", .vstr "u1"), ("column_name", .vstr "c")]], false⟩
     (by decide),
   tag_propagation_amended.2.2 ⟨[], true⟩ true⟩

/-- C5 counterexample: the pivoted row seeds the subject under the key
`s` (from `acc[subjectVal] = \x7b s: subjectVal \x7d`), not under a
`subject` key; the claimed output row does not occur. -/
theorem pivot_subject_key_counterexample :
    (fetchData true wireC5).map (catalogueTransform none) ≠
      .ok ⟨[[("subject", .vstr "u1"), ("name", .vstr "Alice"),
             ("age", .vstr "30")]], true⟩ := by
  intro h
  injection h with h'
  exact absurd h' (by decide)

/-- C5 amended: normalizing the scenario wire result and pivoting yields
exactly one row `\x7b s: "u1", name: "Alice", age: "30" \x7d`, with the
subject identifier seeded under the fixed key `s`. -/
theorem pivot_subject_key_amended :
    (fetchData true wireC5).map (catalogueTransform none) =
      .ok ⟨[[("s", .vstr "u1"), ("name", .vstr "Alice"),
             ("age", .vstr "30")]], true⟩ :=
  rfl

/-- C8 counterexample: the enriched value object is
`\x7b iri, label, __resolved_iri__: true \x7d`, not
`\x7b identifier, label, resolved: true \x7d`; the claimed output does
not occur (second conjunct: the lookup does return the claimed label
map, so only the replacement shape differs). -/
theorem enrichment_shape_counterexample :
    resolveWikidataIrisInRawResults (some [⟨"Q1", some "Universe"⟩])
        ⟨[[("entity_name", .vstr "http://www.wikidata.org/entity/Q1")]],
         true⟩ ≠
      ⟨[[("entity_name",
          .vobj [("identifier", .pstr "http://www.wikidata.org/entity/Q1"),
                 ("label", .pstr "Universe"),
                 ("resolved", .pbool true)])]], true⟩ ∧
    fetchWikidataLabels (some [⟨"Q1", some "Universe"⟩])
        (wikidataIrisToResolve
          [[("entity_name", .vstr "http://www.wikidata.org/entity/Q1")]]) =
      [("http://www.wikidata.org/entity/Q1", "Universe")] :=
  ⟨by decide, rfl⟩

/-- C8 amended: enrichment of the scenario rows with the lookup
resolving Q1 to "Universe" replaces the matched field value by the
object `\x7b iri: original, label: "Universe", __resolved_iri__: true
\x7d` (the source's field names for the enriched value). -/
theorem enrichment_shape_amended :
    resolveWikidataIrisInRawResults (some [⟨"Q1", some "Universe"⟩])
        ⟨[[("entity_name", .vstr "http://www.wikidata.org/entity/Q1")]],
         true⟩ =
      ⟨[[("entity_name",
          .vobj [("iri", .pstr "http://www.wikidata.org/entity/Q1"),
                 ("label", .pstr "Universe"),
                 ("__resolved_iri__", .pbool true)])]], true⟩ :=
  rfl

/-- C9 counterexample: run A starts, run B starts, B's response arrives,
then A's stale response arrives — and A's result is what remains
visible.  `executeSearch` has no generation counter; every arriving
response overwrites the visible state. -/
theorem stale_response_counterexample :
    (runSession ⟨[], none, false⟩
        [.start "alpha" "http://ep" false,
         .start "beta" "http://ep" false,
         .complete (.ok [[("title", .vstr "B")]]),
         .complete (.ok [[("title", .vstr "A")]])]).searchResults =
      [[("title", .vstr "A")]] ∧
    ([[(("title" : String), JsVal.vstr "A")]] : List Row) ≠
      [[("title", .vstr "B")]] :=
  ⟨rfl, by decide⟩

/-- C9 amended: the controller tracks no generation counter; every
completed run's response updates the visible state in arrival order, so
after any event interleaving the visible results are those of whichever
response arrived last. -/
theorem stale_response_amended (st : SearchState) (events : List SearchEvent)
    (results : List Row) :
    (runSession st (events ++ [.complete (.ok results)])).searchResults =
      results := by
  unfold runSession
  rw [List.foldl_append]
  rfl

theorem fetchWikidataLabels_none (iris : List String) :
    fetchWikidataLabels none iris = [] := by
  by_cases h : iris.isEmpty <;> simp [fetchWikidataLabels, h]

theorem resolveRow_of_lookup_none (m : List (String × String)) (row : Row)
    (h : ∀ s, objGet row "entity_name" = some (.vstr s) →
      objGet m s = none) :
    resolveRow m row = row := by
  rcases hv : objGet row "entity_name" with _ | v
  · simp [resolveRow, hv]
  · cases v with
    | vstr s => simp [resolveRow, hv, h s hv]
    | vbool b => simp [resolveRow, hv]
    | vundefined => simp [resolveRow, hv]
    | vobj f => simp [resolveRow, hv]

theorem resolve_preserves_tag (resp : Option (List WEntity)) (ts : RowSet) :
    (resolveWikidataIrisInRawResults resp ts).tag = ts.tag := by
  unfold resolveWikidataIrisInRawResults
  by_cases h0 : ts.rows.isEmpty
  · simp [h0]
  · by_cases h1 : (wikidataIrisToResolve ts.rows).isEmpty
    · simp [h0, h1]
    · simp [h0, h1]

theorem resolve_network_failure_eq (ts : RowSet) :
    resolveWikidataIrisInRawResults none ts = ts := by
  unfold resolveWikidataIrisInRawResults
  by_cases h0 : ts.rows.isEmpty
  · simp [h0]
  · by_cases h1 : (wikidataIrisToResolve ts.rows).isEmpty
    · simp [h0, h1]
    · simp only [h0, h1, Bool.false_eq_true, if_false]
      rw [fetchWikidataLabels_none]
      have hmap : ts.rows.map (resolveRow []) = ts.rows :=
        List.map_id'' (fun row =>
          resolveRow_of_lookup_none [] row (fun s _ => rfl)) ts.rows
      rw [hmap]

theorem resolve_rows_pointwise (resp : Option (List WEntity)) (ts : RowSet)
    (i : Nat) (row : Row) (hrow : ts.rows.get? i = some row)
    (h : ∀ s, objGet row "entity_name" = some (.vstr s) →
      objGet (fetchWikidataLabels resp (wikidataIrisToResolve ts.rows)) s =
        none) :
    (resolveWikidataIrisInRawResults resp ts).rows.get? i = some row := by
  unfold resolveWikidataIrisInRawResults
  by_cases h0 : ts.rows.isEmpty
  · simpa [h0] using hrow
  · by_cases h1 : (wikidataIrisToResolve ts.rows).isEmpty
    · simpa [h0, h1] using hrow
    · simp only [h0, h1, Bool.false_eq_true, if_false]
      rw [List.get?_map, hrow]
      simp [resolveRow_of_lookup_none _ row h]

/-- C6: when no `entity_name` value in the RowSet matches the Wikidata
IRI pattern, enrichment returns the input unchanged (tag included) — and
does so for every possible lookup response, i.e. independently of any
lookup call. -/
theorem enrichment_noop_on_no_match (ts : RowSet)
    (h : ∀ row ∈ ts.rows, ∀ s,
      objGet row "entity_name" = some (.vstr s) → isWikidataStr s = false) :
    ∀ resp : Option (List WEntity),
      resolveWikidataIrisInRawResults resp ts = ts := by
  intro resp
  have hiris : wikidataIrisToResolve ts.rows = [] := by
    have main : ∀ (rows : List Row),
        (∀ row ∈ rows, ∀ s,
          objGet row "entity_name" = some (.vstr s) →
            isWikidataStr s = false) →
        ∀ acc : List String,
          rows.foldl
            (fun (acc : List String) (row : Row) =>
              match objGet row "entity_name" with
              | some (JsVal.vstr s) =>
                if isWikidataStr s && !(acc.contains s) then acc ++ [s]
                else acc
              | _ => acc)
            acc = acc := by
      intro rows
      induction rows with
      | nil => intro _ acc; rfl
      | cons row rest ih =>
        intro hr acc
        have hstep :
            (match objGet row "entity_name" with
              | some (JsVal.vstr s) =>
                if isWikidataStr s && !(acc.contains s) then acc ++ [s]
                else acc
              | _ => acc) = acc := by
          rcases hv : objGet row "entity_name" with _ | v
          · rfl
          · cases v with
            | vstr s =>
              have := hr row (by simp) s hv
              simp [this]
            | vbool b => rfl
            | vundefined => rfl
            | vobj f => rfl
        simp only [List.foldl_cons, hstep]
        exact ih (fun r hrm => hr r (by simp [hrm])) acc
    exact main ts.rows h []
  unfold resolveWikidataIrisInRawResults
  by_cases h0 : ts.rows.isEmpty
  · simp [h0]
  · simp [h0, hiris]

/-- Witness for C6: a RowSet whose only `entity_name` value is a plain
non-Wikidata string is returned unchanged by enrichment, for an
arbitrary available response. -/
theorem enrichment_noop_on_no_match_witness :
    resolveWikidataIrisInRawResults (some [⟨"Q1", some "Universe"⟩])
        ⟨[[("entity_name", .vstr "plain text")]], true⟩ =
      ⟨[[("entity_name", .vstr "plain text")]], true⟩ :=
  enrichment_noop_on_no_match ⟨[[("entity_name", .vstr "plain text")]], true⟩
    (by
      intro row hrow s hs
      simp only [List.mem_singleton] at hrow
      subst hrow
      simp [objGet] at hs
      subst hs
      decide)
    (some [⟨"Q1", some "Universe"⟩])

/-- C7: enrichment never fails the pipeline.  If the batched lookup
fails entirely (network error or non-2xx, modelled by an absent parsed
response) the output RowSet equals the input unchanged; the tag always
passes through; and any row whose `entity_name` is a string absent from
the returned label map (including every row when the lookup partially
fails) passes through unchanged by value at its position. -/
theorem enrichment_degrades_gracefully (ts : RowSet)
    (resp : Option (List WEntity)) :
    resolveWikidataIrisInRawResults none ts = ts ∧
    (resolveWikidataIrisInRawResults resp ts).tag = ts.tag ∧
    ∀ i row, ts.rows.get? i = some row →
      (∀ s, objGet row "entity_name" = some (.vstr s) →
        objGet (fetchWikidataLabels resp (wikidataIrisToResolve ts.rows))
          s = none) →
      (resolveWikidataIrisInRawResults resp ts).rows.get? i = some row :=
  ⟨resolve_network_failure_eq ts,
   resolve_preserves_tag resp ts,
   fun i row hrow h => resolve_rows_pointwise resp ts i row hrow h⟩

/-- Witness for C7: a Wikidata IRI row whose identifier is absent from
the (successful but partial) response keeps its plain string value, and
a failed lookup leaves the whole RowSet unchanged. -/
theorem enrichment_degrades_gracefully_witness :
    resolveWikidataIrisInRawResults none
        ⟨[[("entity_name",
            .vstr "http://www.wikidata.org/entity/Q1")]], true⟩ =
      ⟨[[("entity_name", .vstr "http://www.wikidata.org/entity/Q1")]],
       true⟩ ∧
    (resolveWikidataIrisInRawResults (some [⟨"Q7", some "Other"⟩])
        ⟨[[("entity_name",
            .vstr "http://www.wikidata.org/entity/Q1")]], true⟩).rows.get?
        0 =
      some [("entity_name", .vstr "http://www.wikidata.org/entity/Q1")] := by
  have h := enrichment_degrades_gracefully
    ⟨[[("entity_name", .vstr "http://www.wikidata.org/entity/Q1")]], true⟩
    (some [⟨"Q7", some "Other"⟩])
  refine ⟨h.1, h.2.2 0 _ rfl ?_⟩
  intro s hs
  simp [objGet] at hs
  subst hs
  decide

theorem pivotStep_eq (acc : List (String × Row)) (triple : Row) :
    pivotStep acc triple =
      if contributesToPivot triple then
        objSet acc (pivotSubjKey triple)
          (objSet
            (match objGet acc (pivotSubjKey triple) with
             | some r => r
             | none => pivotSeed triple)
            (pivotColKey triple) (pivotObjVal triple))
      else acc :=
  rfl

theorem groupedBySubject_append_singleton (l : List Row) (a : Row) :
    groupedBySubject (l ++ [a]) = pivotStep (groupedBySubject l) a := by
  unfold groupedBySubject
  rw [List.foldl_append]
  rfl

theorem lastDupRow_append_singleton (l : List Row) (a : Row) (σ κ : String) :
    lastDupRow (l ++ [a]) σ κ =
      if contributesToPivot a && (pivotSubjKey a == σ) &&
          (pivotColKey a == κ) then some a
      else lastDupRow l σ κ := by
  unfold lastDupRow
  rw [List.reverse_append]
  by_cases hp : contributesToPivot a && (pivotSubjKey a == σ) &&
      (pivotColKey a == κ)
  · simp [List.find?, hp]
  · simp only [Bool.not_eq_true] at hp
    simp [List.find?, hp]

theorem grouped_last_write (rows : List Row) (σ κ : String) (r : Row)
    (h : lastDupRow rows σ κ = some r) :
    ∃ prow, objGet (groupedBySubject rows) σ = some prow ∧
      objGet prow κ = some (pivotObjVal r) := by
  induction rows using List.reverseRecOn with
  | nil => simp [lastDupRow] at h
  | append_singleton l a ih =>
    rw [lastDupRow_append_singleton] at h
    rw [groupedBySubject_append_singleton]
    by_cases hp : contributesToPivot a && (pivotSubjKey a == σ) &&
        (pivotColKey a == κ)
    · rw [if_pos hp] at h
      injection h with h
      subst h
      obtain ⟨hc, hs, hk⟩ :
          contributesToPivot a = true ∧ pivotSubjKey a = σ ∧
            pivotColKey a = κ := by
        simp only [Bool.and_eq_true, beq_iff_eq] at hp
        exact ⟨hp.1.1, hp.1.2, hp.2⟩
      rw [pivotStep_eq, if_pos hc, hs, hk]
      exact ⟨_, objGet_objSet_self _ _ _, objGet_objSet_self _ _ _⟩
    · rw [if_neg hp] at h
      obtain ⟨prow, hg, hv⟩ := ih h
      by_cases hc : contributesToPivot a = true
      · by_cases hs : pivotSubjKey a = σ
        · have hk : pivotColKey a ≠ κ := by
            intro hk
            exact hp (by simp [hc, hs, hk])
          rw [pivotStep_eq, if_pos hc, hs, hg]
          refine ⟨objSet prow (pivotColKey a) (pivotObjVal a),
            objGet_objSet_self _ _ _, ?_⟩
          rw [objGet_objSet_ne _ _ _ _ (Ne.symm hk)]
          exact hv
        · rw [pivotStep_eq, if_pos hc]
          refine ⟨prow, ?_, hv⟩
          rw [objGet_objSet_ne _ _ _ _ (fun hh => hs hh.symm)]
          exact hg
      · rw [pivotStep_eq, if_neg hc]
        exact ⟨prow, hg, hv⟩

theorem grouped_keys_aux (rows : List Row) :
    ∀ acc : List (String × Row),
      (rows.foldl pivotStep acc).map Prod.fst =
        rows.foldl
          (fun (ks : List String) (row : Row) =>
            if contributesToPivot row && !(ks.contains (pivotSubjKey row))
            then ks ++ [pivotSubjKey row]
            else ks)
          (acc.map Prod.fst) := by
  induction rows with
  | nil => intro acc; rfl
  | cons row rest ih =>
    intro acc
    rw [List.foldl_cons, List.foldl_cons, ih]
    congr 1
    rw [pivotStep_eq]
    by_cases hc : contributesToPivot row = true
    · rw [if_pos hc, objSet_keys]
      by_cases hk : (acc.map Prod.fst).contains (pivotSubjKey row) = true
      · rw [if_pos hk, hc, hk]
        rfl
      · simp only [Bool.not_eq_true] at hk
        rw [if_neg (by rw [hk]; exact Bool.false_ne_true), hc, hk]
        rfl
    · simp only [Bool.not_eq_true] at hc
      simp [hc]

theorem grouped_keys (rows : List Row) :
    (groupedBySubject rows).map Prod.fst = firstSeenSubjects rows :=
  grouped_keys_aux rows []

/-- C4: pivoting is last-write-wins per (subject, column) cell — the
accumulator row for a subject holds, at each column key, the value of
the last contributing triple that wrote that cell; triples with a falsy
subject or column name are skipped without touching any accumulator;
accumulator rows are keyed (hence emitted) in first-seen-subject order;
and for a non-empty input the pivoted rows are exactly the accumulator
values in that order. -/
theorem pivot_last_write_skip_order :
    (∀ (rows : List Row) (σ κ : String) (r : Row),
        lastDupRow rows σ κ = some r →
        ∃ prow, objGet (groupedBySubject rows) σ = some prow ∧
          objGet prow κ = some (pivotObjVal r)) ∧
    (∀ (l1 l2 : List Row) (row : Row), contributesToPivot row = false →
        groupedBySubject (l1 ++ row :: l2) = groupedBySubject (l1 ++ l2)) ∧
    (∀ rows : List Row,
        (groupedBySubject rows).map Prod.fst = firstSeenSubjects rows) ∧
    (∀ (rawResults ts : RowSet), ts.rows ≠ [] →
        (pivotTripleResults rawResults ts).rows =
          (groupedBySubject ts.rows).map Prod.snd) := by
  refine ⟨grouped_last_write, ?_, grouped_keys, ?_⟩
  · intro l1 l2 row h
    unfold groupedBySubject
    rw [List.foldl_append, List.foldl_cons, List.foldl_append]
    rw [pivotStep_eq]
    simp [h]
  · intro rawResults ts h
    unfold pivotTripleResults
    rw [if_neg (by simpa [List.isEmpty_iff] using h)]

/-- Witness for C4 at the claim's example: rows
`[(s1,"a","x"), (s1,"a","y")]` pivot to an `s1` accumulator row whose
`a` field is `"y"`; a malformed row inserted between them changes
nothing; and the subjects appear in first-seen order. -/
theorem pivot_last_write_skip_order_witness :
    lastDupRow
        [[("s", .vstr "s1"), ("column_name", .vstr "a"),
          ("entity_name", .vstr "x")],
         [("s", .vstr "s1"), ("column_name", .vstr "a"),
          ("entity_name", .vstr "y")]] "s1" "a" =
      some [("s", .vstr "s1"), ("column_name", .vstr "a"),
            ("entity_name", .vstr "y")] ∧
    (∃ prow,
      objGet (groupedBySubject
        [[("s", .vstr "s1"), ("column_name", .vstr "a"),
          ("entity_name", .vstr "x")],
         [("s", .vstr "s1"), ("column_name", .vstr "a"),
          ("entity_name", .vstr "y")]]) "s1" = some prow ∧
      objGet prow "a" =
        some (pivotObjVal
          [("s", .vstr "s1"), ("column_name", .vstr "a"),
           ("entity_name", .vstr "y")])) ∧
    groupedBySubject
        [[("s", .vstr "s1"), ("column_name", .vstr "a"),
          ("entity_name", .vstr "x")],
         [("entity_name", .vstr "orphan")],
         [("s", .vstr "s1"), ("column_name", .vstr "a"),
          ("entity_name", .vstr "y")]] =
      groupedBySubject
        [[("s", .vstr "s1"), ("column_name", .vstr "a"),
          ("entity_name", .vstr "x")],
         [("s", .vstr "s1"), ("column_name", .vstr "a"),
          ("entity_name", .vstr "y")]] ∧
    (groupedBySubject
        [[("s", .vstr "s2"), ("column_name", .vstr "a"),
          ("entity_name", .vstr "x")],
         [("s", .vstr "s1"), ("column_name", .vstr "a"),
          ("entity_name", .vstr "y")]]).map Prod.fst =
      firstSeenSubjects
        [[("s", .vstr "s2"), ("column_name", .vstr "a"),
          ("entity_name", .vstr "x")],
         [("s", .vstr "s1"), ("column_name", .vstr "a"),
          ("entity_name", .vstr "y")]] :=
  ⟨by decide,
   pivot_last_write_skip_order.1 _ "s1" "a" _ (by decide),
   pivot_last_write_skip_order.2.1
     [[("s", .vstr "s1"), ("column_name", .vstr "a"),
       ("entity_name", .vstr "x")]]
     [[("s", .vstr "s1"), ("column_name", .vstr "a"),
       ("entity_name", .vstr "y")]]
     [("entity_name", .vstr "orphan")] (by decide),
   pivot_last_write_skip_order.2.2.1 _⟩

theorem string_data_append (a b : String) : (a ++ b).data = a.data ++ b.data :=
  rfl

theorem isPrefixOf_exists :
    ∀ (l₁ l₂ : List Char), l₁.isPrefixOf l₂ = true → ∃ t, l₂ = l₁ ++ t := by
  intro l₁
  induction l₁ with
  | nil => intro l₂ _; exact ⟨l₂, rfl⟩
  | cons c cs ih =>
    intro l₂ h
    cases l₂ with
    | nil => simp [List.isPrefixOf] at h
    | cons d ds =>
      simp only [List.isPrefixOf, Bool.and_eq_true, beq_iff_eq] at h
      obtain ⟨t, ht⟩ := ih ds h.2
      exact ⟨t, by rw [h.1, ht]; rfl⟩

theorem isPrefixOf_self_append :
    ∀ (l t : List Char), l.isPrefixOf (l ++ t) = true := by
  intro l
  induction l with
  | nil => intro t; cases t <;> rfl
  | cons c cs ih =>
    intro t
    simp [List.isPrefixOf, ih]

theorem mem_of_isPrefixOf :
    ∀ (l₁ l₂ : List Char) (a : Char), l₁.isPrefixOf l₂ = true → a ∈ l₁ →
      a ∈ l₂ := by
  intro l₁
  induction l₁ with
  | nil => intro l₂ a _ ha; cases ha
  | cons c cs ih =>
    intro l₂ a h ha
    cases l₂ with
    | nil => simp [List.isPrefixOf] at h
    | cons d ds =>
      simp only [List.isPrefixOf, Bool.and_eq_true, beq_iff_eq] at h
      rcases List.mem_cons.mp ha with rfl | ha
      · rw [h.1]; exact List.mem_cons_self _ _
      · exact List.mem_cons_of_mem _ (ih ds a h.2 ha)

theorem takeWhile_until_slash (l1 l2 : List Char)
    (h : ∀ c ∈ l1, c ≠ '/') :
    (l1 ++ '/' :: l2).takeWhile (fun c => c ≠ '/') = l1 := by
  induction l1 with
  | nil => simp [List.takeWhile]
  | cons c cs ih =>
    have hc : c ≠ '/' := h c (List.mem_cons_self _ _)
    simp only [List.cons_append, List.takeWhile, decide_eq_true hc]
    exact congrArg (c :: ·) (ih (fun x hx => h x (List.mem_cons_of_mem _ hx)))

theorem exists_slash_split (l : List Char) (h : '/' ∈ l) :
    ∃ l2, l = l.takeWhile (fun c => c ≠ '/') ++ '/' :: l2 := by
  induction l with
  | nil => cases h
  | cons c cs ih =>
    by_cases hc : c = '/'
    · subst hc
      exact ⟨cs, by simp [List.takeWhile]⟩
    · have hmem : '/' ∈ cs := by
        rcases List.mem_cons.mp h with hh | hh
        · exact absurd hh.symm hc
        · exact hh
      obtain ⟨l2, hl2⟩ := ih hmem
      refine ⟨l2, ?_⟩
      simp only [List.takeWhile, decide_eq_true hc, List.cons_append]
      exact congrArg (c :: ·) hl2

theorem afterLastSlash_of_endsWith (s e : String) (he : '/' ∉ e.data)
    (h : jsEndsWith s ("/" ++ e) = true) : afterLastSlash s = e := by
  cases s with
  | mk sd =>
    cases e with
    | mk ed =>
      unfold jsEndsWith at h
      rw [string_data_append] at h
      have hpre : ('/' :: ed).reverse.isPrefixOf sd.reverse = true := by
        simpa [List.isSuffixOf] using h
      obtain ⟨t, ht⟩ := isPrefixOf_exists _ _ hpre
      rw [List.reverse_cons, List.append_assoc] at ht
      simp only [List.singleton_append] at ht
      have hside : ∀ c ∈ ed.reverse, c ≠ '/' := by
        intro c hcm hceq
        subst hceq
        exact he (List.mem_reverse.mp hcm)
      unfold afterLastSlash
      simp only
      rw [ht, takeWhile_until_slash _ _ hside, List.reverse_reverse]

theorem endsWith_slash_afterLastSlash (s : String) (hs : '/' ∈ s.data) :
    jsEndsWith s ("/" ++ afterLastSlash s) = true := by
  cases s with
  | mk sd =>
    have hsrev : '/' ∈ sd.reverse := List.mem_reverse.mpr hs
    obtain ⟨l2, hl2⟩ := exists_slash_split sd.reverse hsrev
    unfold jsEndsWith afterLastSlash
    rw [string_data_append]
    simp only [List.isSuffixOf]
    set tw := sd.reverse.takeWhile (fun c => (c ≠ '/' : Bool)) with htw
    simp only [List.reverse_append, List.reverse_reverse]
    rw [show (("/" : String).data).reverse = ['/'] from rfl]
    rw [hl2, show tw ++ '/' :: l2 = (tw ++ ['/']) ++ l2 by
      rw [List.append_assoc]; rfl]
    exact isPrefixOf_self_append _ _

theorem find?_ne_of_earlier (p : String → Bool) :
    ∀ (l : List String) (i j : Nat) (a b : String),
      l.get? i = some a → l.get? j = some b → i < j → p a = true →
      l.Nodup → l.find? p ≠ some b := by
  intro l
  induction l with
  | nil => intro i j a b hi _ _ _ _; simp at hi
  | cons x xs ih =>
    intro i j a b hi hj hij hpa hnd
    obtain ⟨hx, hxs⟩ := List.nodup_cons.mp hnd
    cases hpx : p x with
    | true =>
      rw [List.find?_cons_of_pos _ hpx]
      intro hcontra
      injection hcontra with hxb
      subst hxb
      cases j with
      | zero => exact absurd hij (Nat.not_lt_zero i)
      | succ j' =>
        simp only [List.get?_cons_succ] at hj
        exact hx (List.get?_mem hj)
    | false =>
      rw [List.find?_cons_of_neg _ (by simp [hpx])]
      cases i with
      | zero =>
        simp only [List.get?_cons_zero] at hi
        injection hi with hi
        subst hi
        rw [hpa] at hpx
        cases hpx
      | succ i' =>
        cases j with
        | zero => exact absurd hij (by omega)
        | succ j' =>
          simp only [List.get?_cons_succ] at hi hj
          exact ih i' j' a b hi hj (Nat.lt_of_succ_lt_succ hij) hpa hxs

theorem slash_mem_of_isWikidataStr (s : String)
    (h : isWikidataStr s = true) : '/' ∈ s.data := by
  unfold isWikidataStr wikidataPrefixList at h
  simp only [List.any_cons, List.any_nil, Bool.or_eq_true, Bool.or_false]
    at h
  unfold jsStartsWith at h
  rcases h with h | h | h | h <;>
    exact mem_of_isPrefixOf _ _ '/' h (by decide)

theorem addEntityLabels_objGet_ne (iris : List String)
    (acc : List (String × String)) (e : WEntity) (x : String)
    (h : ∀ oi, iris.find? (fun iri => jsEndsWith iri ("/" ++ e.id)) =
      some oi → oi ≠ x) :
    objGet (addEntityLabels iris acc e) x = objGet acc x := by
  unfold addEntityLabels
  cases e.label with
  | none => rfl
  | some l =>
    show objGet
        (if e.id ≠ "" ∧ l ≠ "" then
          match iris.find? (fun iri => jsEndsWith iri ("/" ++ e.id)) with
          | some originalIri => objSet acc originalIri l
          | none => acc
        else acc) x = objGet acc x
    by_cases hg : e.id ≠ "" ∧ l ≠ ""
    · rw [if_pos hg]
      cases hfind :
          iris.find? (fun iri => jsEndsWith iri ("/" ++ e.id)) with
      | none => rfl
      | some oi =>
        exact objGet_objSet_ne acc oi x l (Ne.symm (h oi hfind))
    · rw [if_neg hg]

theorem fetchWikidataLabels_lookup_none
    (es : List WEntity) (iris : List String) (i j : Nat)
    (iriI iriJ : String)
    (hids : ∀ e ∈ es, '/' ∉ e.id.data)
    (hnd : iris.Nodup)
    (hi : iris.get? i = some iriI) (hj : iris.get? j = some iriJ)
    (hij : i < j)
    (hslashI : '/' ∈ iriI.data)
    (htail : afterLastSlash iriI = afterLastSlash iriJ) :
    objGet (fetchWikidataLabels (some es) iris) iriJ = none := by
  have hne : iris.isEmpty = false := by
    cases iris with
    | nil => simp at hj
    | cons a as => rfl
  have hkey : ∀ e : WEntity, '/' ∉ e.id.data →
      ∀ oi, iris.find? (fun iri => jsEndsWith iri ("/" ++ e.id)) = some oi →
        oi ≠ iriJ := by
    intro e hee oi hfind hEq
    subst hEq
    have hpredJ : jsEndsWith oi ("/" ++ e.id) = true := by
      simpa using List.find?_some hfind
    have hid : afterLastSlash oi = e.id :=
      afterLastSlash_of_endsWith oi e.id hee hpredJ
    have hpredI : jsEndsWith iriI ("/" ++ e.id) = true := by
      rw [← hid, ← htail]
      exact endsWith_slash_afterLastSlash iriI hslashI
    exact find?_ne_of_earlier _ iris i j iriI oi hi hj hij hpredI hnd hfind
  have main : ∀ (work : List WEntity), (∀ e ∈ work, '/' ∉ e.id.data) →
      ∀ acc : List (String × String), objGet acc iriJ = none →
        objGet (work.foldl (addEntityLabels iris) acc) iriJ = none := by
    intro work
    induction work with
    | nil => intro _ acc h; exact h
    | cons e rest ih =>
      intro hes acc hacc
      rw [List.foldl_cons]
      refine ih (fun x hx => hes x (List.mem_cons_of_mem _ hx)) _ ?_
      rw [addEntityLabels_objGet_ne iris acc e iriJ
        (hkey e (hes e (List.mem_cons_self _ _)))]
      exact hacc
  unfold fetchWikidataLabels
  simp only [hne, Bool.false_eq_true, if_false]
  exact main es hids [] rfl

/-- C10: the batched lookup sends each identifier reduced to the
substring after its last slash, and keys every returned label back to
the FIRST batch identifier ending with `'/' + entityId`.  Hence when a
deduplicated batch contains two distinct matched identifiers with the
same trailing entity id (e.g. the http and https variants of one
entity), the later one never receives a label (so at most one of the
two does), and rows holding the later variant keep their plain string
value through enrichment.  The hypothesis that response entity ids
contain no slash reflects the API contract: the ids echo the requested
trailing segments, which are slash-free by construction. -/
theorem wikidata_label_keying
    (es : List WEntity) (iris : List String) (i j : Nat)
    (iriI iriJ : String)
    (hids : ∀ e ∈ es, '/' ∉ e.id.data)
    (hnd : iris.Nodup)
    (hi : iris.get? i = some iriI) (hj : iris.get? j = some iriJ)
    (hij : i < j)
    (hwI : isWikidataStr iriI = true) (hwJ : isWikidataStr iriJ = true)
    (htail : afterLastSlash iriI = afterLastSlash iriJ) :
    wikidataRequestIds iris = iris.map afterLastSlash ∧
    objGet (fetchWikidataLabels (some es) iris) iriJ = none ∧
    (∀ ts : RowSet, wikidataIrisToResolve ts.rows = iris →
      ∀ k row, ts.rows.get? k = some row →
        objGet row "entity_name" = some (.vstr iriJ) →
        (resolveWikidataIrisInRawResults (some es) ts).rows.get? k =
          some row) := by
  have hnone : objGet (fetchWikidataLabels (some es) iris) iriJ = none :=
    fetchWikidataLabels_lookup_none es iris i j iriI iriJ hids hnd hi hj
      hij (slash_mem_of_isWikidataStr iriI hwI) htail
  refine ⟨rfl, hnone, ?_⟩
  intro ts hts k row hrowk hrowv
  refine resolve_rows_pointwise (some es) ts k row hrowk ?_
  intro s hs
  rw [hrowv] at hs
  injection hs with hs
  injection hs with hs
  subst hs
  rw [hts]
  exact hnone

theorem wikidata_label_keying_witness :
    wikidataRequestIds
        ["http://www.wikidata.org/entity/Q1",
         "https://www.wikidata.org/entity/Q1"] =
      ["http://www.wikidata.org/entity/Q1",
       "https://www.wikidata.org/entity/Q1"].map afterLastSlash ∧
    objGet
        (fetchWikidataLabels (some [⟨"Q1", some "Universe"⟩])
          ["http://www.wikidata.org/entity/Q1",
           "https://www.wikidata.org/entity/Q1"])
        "https://www.wikidata.org/entity/Q1" = none ∧
    (resolveWikidataIrisInRawResults (some [⟨"Q1", some "Universe"⟩])
        ⟨[[("entity_name", .vstr "http://www.wikidata.org/entity/Q1")],
          [("entity_name", .vstr "https://www.wikidata.org/entity/Q1")]],
         true⟩).rows.get? 1 =
      some [("entity_name", .vstr "https://www.wikidata.org/entity/Q1")] := by
  have h := wikidata_label_keying [⟨"Q1", some "Universe"⟩]
    ["http://www.wikidata.org/entity/Q1",
     "https://www.wikidata.org/entity/Q1"] 0 1
    "http://www.wikidata.org/entity/Q1"
    "https://www.wikidata.org/entity/Q1"
    (by decide) (by decide) rfl rfl (by decide) (by decide) (by decide)
    (by decide)
  refine ⟨h.1, h.2.1, ?_⟩
  exact h.2.2
    ⟨[[("entity_name", .vstr "http://www.wikidata.org/entity/Q1")],
      [("entity_name", .vstr "https://www.wikidata.org/entity/Q1")]],
     true⟩
    (by decide) 1 _ rfl rfl

end RawGraphs
